import Mathlib

/-
Verification development for the OWASP metadata scraper
(scripts/scrape_metadata.py).  The script's pure core is shallowly
embedded below: the on-disk result cache (cache_path / load_cache), the
raw-file fetcher (fetch_file), front-matter extraction
(extract_front_matter), the sidebar markdown extractor
(parse_sidebar_content), the per-repository scanner (scan_repo) and the
presence-matrix cell rule from main.  Text is modelled as List Char;
regular expressions are compiled by hand into executable scanners with
the same matching semantics (leftmost search, greedy character classes,
ordered alternation); external effects (HTTP responses, the YAML parser,
the bytes of a cache file) are oracles passed as arguments, with a
distinguished constructor for a raised exception where the Python can
raise.  Instants are integer seconds.
-/

/-- The characters of a string literal, for writing concrete inputs. -/
def chars (s : String) : List Char := s.data

/-- Python regex \s over the ASCII range (the inputs the script reads). -/
def pySpace (c : Char) : Bool :=
  c = ' ' || c = '\t' || c = '\n' || c = '\r' || c = '\x0b' || c = '\x0c'

/-- Python regex \w over the ASCII range. -/
def wordChar (c : Char) : Bool :=
  ('a' ≤ c && c ≤ 'z') || ('A' ≤ c && c ≤ 'Z') || ('0' ≤ c && c ≤ '9') || c = '_'

/-- ASCII lower-casing, as str.lower / re.IGNORECASE act on these inputs. -/
def lowerA (c : Char) : Char :=
  if 'A' ≤ c && c ≤ 'Z' then Char.ofNat (c.toNat + 32) else c

/-- Case-insensitive character comparison (re.IGNORECASE). -/
def icEq (a b : Char) : Bool := lowerA a = lowerA b

/-- Consume a literal pattern case-insensitively; the remainder on success. -/
def stripIC : List Char → List Char → Option (List Char)
  | [], s => some s
  | _ :: _, [] => none
  | p :: ps, c :: cs => if icEq p c then stripIC ps cs else none

/-- Consume a literal pattern case-sensitively; the remainder on success. -/
def stripCS : List Char → List Char → Option (List Char)
  | [], s => some s
  | _ :: _, [] => none
  | p :: ps, c :: cs => if p = c then stripCS ps cs else none

def startsWithCS (p s : List Char) : Bool := (stripCS p s).isSome

/-- Python's substring test (the `in` operator on str), case-sensitive. -/
def containsCS (p : List Char) : List Char → Bool
  | [] => (stripCS p []).isSome
  | c :: cs => startsWithCS p (c :: cs) || containsCS p cs

/-- Case-insensitive substring search (re.search of a literal pattern). -/
def containsIC (p : List Char) : List Char → Bool
  | [] => (stripIC p []).isSome
  | c :: cs => (stripIC p (c :: cs)).isSome || containsIC p cs

/-- Greedy \s* . -/
def dropSpaces (s : List Char) : List Char := s.dropWhile pySpace

def headIs (c : Char) : List Char → Bool
  | x :: _ => x = c
  | [] => false

/-- Optionally consume one character, case-insensitively (regex c?). -/
def optIC (c : Char) (s : List Char) : List Char :=
  match s with
  | x :: xs => if icEq c x then xs else x :: xs
  | [] => []

/-- Split at the first occurrence of a stop character: greedy [^stop]*
followed by the remainder starting at the stop character (if any). -/
def spanNE (stop : Char) : List Char → List Char × List Char
  | [] => ([], [])
  | c :: cs =>
    if c = stop then ([], c :: cs)
    else
      let p := spanNE stop cs
      (c :: p.1, p.2)

/-- Python str.strip() with the default whitespace set. -/
def stripWs (l : List Char) : List Char :=
  ((l.dropWhile pySpace).reverse.dropWhile pySpace).reverse

/-- re.search with a Bool matcher: try the pattern at every position,
left to right, including the empty suffix. -/
def reSearchB (m : List Char → Bool) : List Char → Bool
  | [] => m []
  | c :: cs => m (c :: cs) || reSearchB m cs

/-- re.search with a capturing matcher: first match, left to right. -/
def reSearchO {α : Type} (m : List Char → Option α) : List Char → Option α
  | [] => m []
  | c :: cs =>
    match m (c :: cs) with
    | some a => some a
    | none => reSearchO m cs

/-- re.finditer: non-overlapping matches, left to right.  Every matcher
used consumes at least one character, so fuel = length suffices. -/
def findAllAux {α : Type} (m : List Char → Option (α × List Char)) :
    Nat → List Char → List α
  | 0, _ => []
  | _ + 1, [] => []
  | fuel + 1, c :: cs =>
    match m (c :: cs) with
    | some (a, rest) => a :: findAllAux m fuel rest
    | none => findAllAux m fuel cs

def findAll {α : Type} (m : List Char → Option (α × List Char)) (s : List Char) : List α :=
  findAllAux m s.length s

/-- Word-boundary search: re.search of \b<word>\b, with optional
IGNORECASE.  The flag on the accumulator records whether the previous
character is a word character. -/
def wbAux (ic : Bool) (w : List Char) : Bool → List Char → Bool
  | _, [] => false
  | prevW, c :: cs =>
    (!prevW &&
      (match (if ic then stripIC w (c :: cs) else stripCS w (c :: cs)) with
       | some rest =>
         (match rest with
          | r :: _ => !wordChar r
          | [] => true)
       | none => false)) ||
    wbAux ic w (wordChar c) cs

def wordSearch (ic : Bool) (w : String) (c : List Char) : Bool :=
  wbAux ic (chars w) false c

/-- First-match association-list lookup; the Python dicts modelled here
never hold duplicate keys. -/
def lookupStr {α : Type} (k : String) : List (String × α) → Option α
  | [] => none
  | (k', v) :: rest => if k = k' then some v else lookupStr k rest

def hasKey {α : Type} (k : String) : List (String × α) → Bool
  | [] => false
  | (k', _) :: rest => if k' = k then true else hasKey k rest

def setKey {α : Type} (k : String) (v : α) : List (String × α) → List (String × α)
  | [] => []
  | (k', v') :: rest =>
    if k' = k then (k, v) :: setKey k v rest else (k', v') :: setKey k v rest

/-- Python dict assignment d[k] = v: overwrite in place when the key is
present, else append in insertion order. -/
def dictInsert {α : Type} (d : List (String × α)) (k : String) (v : α) :
    List (String × α) :=
  if hasKey k d then setKey k v d else d ++ [(k, v)]

/-- Python dict.update: fold the entries of e into d, left to right. -/
def dictUpdate {α : Type} (d e : List (String × α)) : List (String × α) :=
  e.foldl (fun acc p => dictInsert acc p.1 p.2) d

/-- Values of YAML front-matter mappings: scalar or list (the script
never inspects them, it only stores and serializes them). -/
inductive YLeaf where
  | yscalar (s : String)
  | ylist (xs : List String)
deriving DecidableEq, Repr

/-- Outcome of yaml.safe_load on a front-matter block: a mapping, or any
non-mapping document (scalar, list, null) that isinstance(..., dict)
rejects.  The parser itself is an external oracle; `none` at the call
site stands for a raised parse exception. -/
inductive YamlDoc where
  | ymap (m : List (String × YLeaf))
  | ynonmap
deriving DecidableEq, Repr

/-- One extracted leader: {"name": ...} with an optional "email". -/
structure Leader where
  name : String
  email : Option String
deriving DecidableEq, Repr

/-- Values stored in sidebar_metadata by parse_sidebar_content. -/
inductive SbVal where
  | s (v : String)
  | slist (vs : List String)
  | leaders (ls : List Leader)
deriving DecidableEq, Repr

/-- The per-repository result record built by scan_repo. -/
structure Record where
  repo : String
  source_file : Option String
  metadata : List (String × YLeaf)
  sidebar_metadata : List (String × SbVal)
  archived : Bool
deriving DecidableEq, Repr

/-- CACHE_TTL_HOURS = 24. -/
def CACHE_TTL_HOURS : Int := 24

/-- cache_path(owner, repo): CACHE_DIR / (owner + "__" + repo + ".json"). -/
def cache_path (owner repo : String) : String :=
  (".cache/") ++ owner ++ ("__") ++ repo ++ (".json")

/-- The state of one on-disk cache file as load_cache sees it after
json.load and timestamp parsing: either a well-formed
{timestamp, content} object (the timestamp normalised to UTC seconds;
a timezone-naive stamp is interpreted as UTC, so it denotes the same
instant) or malformed bytes, on which json.load / fromisoformat raises. -/
inductive CacheFile where
  | entry (tsSec : Int) (content : Record)
  | malformed

/-- load_cache(owner, repo), given the state of the cache file for that
key and the current UTC time in seconds.  A missing file is a miss; the
code has no try/except, so a malformed file raises (Except.error); a
well-formed entry is a miss iff now - ts > 24h (strict comparison). -/
def load_cache (file : Option CacheFile) (nowSec : Int) : Except Unit (Option Record) :=
  match file with
  | none => Except.ok none
  | some CacheFile.malformed => Except.error ()
  | some (CacheFile.entry ts content) =>
    if nowSec - ts > CACHE_TTL_HOURS * 3600 then Except.ok none
    else Except.ok (some content)

/-- One HTTP attempt as fetch_file observes it: a response with a status
code and body, or a raised transport exception (requests.get has no
surrounding try/except in the script). -/
inductive Resp where
  | status (code : Nat) (body : List Char)
  | exn

/-- The loop body of fetch_file over the fixed branch list. -/
def tryBranches (resp : String → Resp) : List String → Except Unit (Option (List Char))
  | [] => Except.ok none
  | b :: rest =>
    match resp b with
    | Resp.exn => Except.error ()
    | Resp.status code body =>
      if code = 200 then Except.ok (some body) else tryBranches resp rest

/-- fetch_file(owner, repo, filename): try branches main then master;
return the body of the first 200 response; None when both attempts get
a non-200 response; a transport exception propagates. -/
def fetch_file (resp : String → Resp) : Except Unit (Option (List Char)) :=
  tryBranches resp [("main"), ("master")]

/-- The non-greedy scan for the closing delimiter: the characters before
the first occurrence of "---", if one occurs. -/
def splitAtTriple : List Char → Option (List Char)
  | [] => none
  | c :: cs =>
    if startsWithCS (chars ("---")) (c :: cs) then some []
    else
      match splitAtTriple cs with
      | some inner => some (c :: inner)
      | none => none

/-- re.search of ---(.*?)--- with DOTALL: the group of the
leftmost-shortest match.  Note the delimiters are bare substring
occurrences of "---" anywhere in the text, not lines of three dashes. -/
def reSearchTriple : List Char → Option (List Char)
  | [] => none
  | c :: cs =>
    if startsWithCS (chars ("---")) (c :: cs) then
      match splitAtTriple ((c :: cs).drop 3) with
      | some inner => some inner
      | none => reSearchTriple cs
    else reSearchTriple cs

/-- extract_front_matter(content): locate the delimited block, run
yaml.safe_load on it (parse oracle; none = exception, swallowed by the
bare except), keep the result only when it is a dict. -/
def extract_front_matter (parse : List Char → Option YamlDoc) (content : List Char) :
    List (String × YLeaf) :=
  match reSearchTriple content with
  | none => []
  | some inner =>
    match parse inner with
    | some (YamlDoc.ymap m) => m
    | _ => []

/-- True when the content has a recognizable Leaders section header
("### Leaders" in content or "## Leaders" in content). -/
def is_leaders_file (c : List Char) : Bool :=
  containsCS (chars ("### Leaders")) c || containsCS (chars ("## Leaders")) c

/-- One attempt of the leader pattern
\*\s*\[([^\]]+)\]\(mailto:([^)]+)\) (IGNORECASE) at the current
position; both captured groups are str.strip()ed.  Returns the leader
and the rest of the text after the match. -/
def leaderAt (s : List Char) : Option (Leader × List Char) :=
  match s with
  | '*' :: r0 =>
    (match dropSpaces r0 with
     | '[' :: r1 =>
       (match spanNE ']' r1 with
        | (nm, ']' :: '(' :: r2) =>
          if nm.isEmpty then none
          else
            (match stripIC (chars ("mailto:")) r2 with
             | some r3 =>
               (match spanNE ')' r3 with
                | (em, ')' :: rest) =>
                  if em.isEmpty then none
                  else some ({ name := String.mk (stripWs nm),
                               email := some (String.mk (stripWs em)) }, rest)
                | _ => none)
             | none => none)
        | _ => none)
     | _ => none)
  | _ => none

/-- The bare-link pattern core \*\s*\[([^\]]+)\]\([^)]+\) tried at a
line start; \s* may cross newlines (Python \s includes them).  Returns
the raw captured name and the rest of the text just after the ')'. -/
def simpleCore (s : List Char) : Option (List Char × List Char) :=
  match dropSpaces s with
  | '*' :: r1 =>
    (match dropSpaces r1 with
     | '[' :: r2 =>
       (match spanNE ']' r2 with
        | (nm, ']' :: '(' :: r3) =>
          if nm.isEmpty then none
          else
            (match spanNE ')' r3 with
             | (inner, ')' :: r4) =>
               if inner.isEmpty then none else some (nm, r4)
             | _ => none)
        | _ => none)
     | _ => none)
  | _ => none

/-- Split a list at its last newline: some (before, after) with
l = before ++ newline :: after and no newline in after. -/
def lastNlSplit : List Char → Option (List Char × List Char)
  | [] => none
  | c :: cs =>
    match lastNlSplit cs with
    | some (b, a) => some (c :: b, a)
    | none => if c = '\n' then some ([], cs) else none

/-- The trailing \s*$ of the bare-link pattern under MULTILINE: greedy
run of whitespace, backtracked to the longest stop where $ holds (end
of string, or just before the last newline of the run).  Returns the
rest of the text at the match end and whether that position is a line
start (for resuming the ^-anchored scan). -/
def simpleAt (s : List Char) : Option (String × List Char × Bool) :=
  match simpleCore s with
  | none => none
  | some (nm, r5) =>
    let run := r5.takeWhile pySpace
    let rest := r5.drop run.length
    if rest.isEmpty then some (String.mk (stripWs nm), [], false)
    else
      match lastNlSplit run with
      | some (r1, r2) =>
        some (String.mk (stripWs nm), '\n' :: (r2 ++ rest),
              (match r1.getLast? with
               | some '\n' => true
               | _ => false))
      | none => none

/-- re.finditer of the MULTILINE bare-link pattern: attempts happen only
at line starts (the ^ anchor); the flag tracks whether the current
position is one. -/
def findSimpleAux : Nat → Bool → List Char → List String
  | 0, _, _ => []
  | _ + 1, _, [] => []
  | fuel + 1, atStart, c :: cs =>
    if atStart then
      match simpleAt (c :: cs) with
      | some (nm, rest, as2) => nm :: findSimpleAux fuel as2 rest
      | none => findSimpleAux fuel (c = '\n') cs
    else findSimpleAux fuel (c = '\n') cs

def findSimple (s : List Char) : List String :=
  findSimpleAux s.length true s

/-- The resource-link tokens that disqualify a bare name. -/
def leaderTokens : List (List Char) :=
  [chars ("download"), chars ("repo"), chars ("github"), chars ("http"), chars ("license")]

def resourceLike (nm : String) : Bool :=
  leaderTokens.any (fun t => containsCS t (nm.data.map lowerA))

/-- The second leader loop: append each bare name unless a leader of
that name is already in the accumulated list (duplicates include names
just appended by this same loop) or the name looks like a resource link. -/
def addSimpleLeaders (acc : List Leader) : List String → List Leader
  | [] => acc
  | nm :: rest =>
    if acc.any (fun l => l.name = nm) then addSimpleLeaders acc rest
    else if resourceLike nm then addSimpleLeaders acc rest
    else addSimpleLeaders (acc ++ [{ name := nm, email := none }]) rest

def leadersOf (c : List Char) : List Leader :=
  addSimpleLeaders (findAll leaderAt c) (findSimple c)

def leadersEntry (c : List Char) : List (String × SbVal) :=
  if is_leaders_file c then
    (let ls := leadersOf c
     if ls.isEmpty then [] else [(("leaders_list"), SbVal.leaders ls)])
  else []

/-- The capture (https?://dom/[^)]+) followed by the closing \), with
the domain alternatives tried in order and full backtracking between
them.  capStart is the position where the capture group opened; the
returned string is everything consumed up to (not including) ')'. -/
def domLoop (doms : List String) (capStart r3 : List Char) : Option (String × List Char) :=
  match doms with
  | [] => none
  | d :: ds =>
    (match stripIC (chars d) r3 with
     | some ('/' :: r4) =>
       (match spanNE ')' r4 with
        | (body, ')' :: rest) =>
          if body.isEmpty then domLoop ds capStart r3
          else some (String.mk (capStart.take (capStart.length - rest.length - 1)), rest)
        | _ => domLoop ds capStart r3)
     | _ => domLoop ds capStart r3)

def socialTail (doms : List String) (r : List Char) : Option (String × List Char) :=
  match stripIC (chars ("http")) r with
  | none => none
  | some r1 =>
    (match stripCS (chars ("://")) (optIC 's' r1) with
     | none => none
     | some r3 => domLoop doms r r3)

/-- One attempt of a social-link pattern
\[(label1|label2)\]\((https?://(dom1|dom2)/[^)]+)\) (IGNORECASE), with
the label alternatives tried in order and full backtracking. -/
def labelTry (labels : List String) (doms : List String) (r0 : List Char) :
    Option (String × List Char) :=
  match labels with
  | [] => none
  | l :: ls =>
    (match stripIC (chars l) r0 with
     | some (']' :: '(' :: r2) =>
       (match socialTail doms r2 with
        | some res => some res
        | none => labelTry ls doms r0)
     | _ => labelTry ls doms r0)

def socialAt (labels doms : List String) (s : List Char) : Option (String × List Char) :=
  match s with
  | '[' :: r0 => labelTry labels doms r0
  | _ => none

def socialEntry (key : String) (labels doms : List String) (c : List Char) :
    List (String × SbVal) :=
  match reSearchO (socialAt labels doms) c with
  | some (url, _) => [(key, SbVal.s url)]
  | none => []

/-- The social_patterns dict, searched in its insertion order. -/
def socialEntries (c : List Char) : List (String × SbVal) :=
  socialEntry ("social_twitter") [("Twitter"), ("X")] [("twitter.com"), ("x.com")] c
  ++ socialEntry ("social_facebook") [("Facebook")] [("www.facebook.com"), ("facebook.com")] c
  ++ socialEntry ("social_linkedin") [("LinkedIn")] [("www.linkedin.com"), ("linkedin.com")] c
  ++ socialEntry ("social_youtube") [("YouTube")] [("www.youtube.com"), ("youtube.com")] c
  ++ socialEntry ("social_meetup") [("Meetup.com"), ("Meetup")] [("www.meetup.com"), ("meetup.com")] c

/-- The project-classification if/elif chain of substring tests. -/
def classEntry (c : List Char) : List (String × SbVal) :=
  if containsCS (chars ("Flagship Project")) c then
    [(("project_classification"), SbVal.s ("Flagship"))]
  else if containsCS (chars ("Lab Project")) c || containsCS (chars ("Lab project")) c then
    [(("project_classification"), SbVal.s ("Lab"))]
  else if containsCS (chars ("Incubator Project")) c
      || containsCS (chars ("Incubator project")) c then
    [(("project_classification"), SbVal.s ("Incubator"))]
  else if containsCS (chars ("Production Project")) c then
    [(("project_classification"), SbVal.s ("Production"))]
  else []

/-- The type_patterns dict of literal icon markers, first match wins. -/
def typeEntry (c : List Char) : List (String × SbVal) :=
  if containsIC (chars ("<i class=\"fas fa-tools\"")) c then
    [(("sidebar_type"), SbVal.s ("Tool"))]
  else if containsIC (chars ("<i class=\"fas fa-book\"")) c then
    [(("sidebar_type"), SbVal.s ("Documentation"))]
  else if containsIC (chars ("<i class=\"fas fa-code\"")) c then
    [(("sidebar_type"), SbVal.s ("Code"))]
  else []

/-- The audience checks: independent case-sensitive \b..\b searches. -/
def audienceEntry (c : List Char) : List (String × SbVal) :=
  let a := (if wordSearch false ("Breaker") c then [(("Breaker") : String)] else [])
        ++ (if wordSearch false ("Builder") c then [(("Builder") : String)] else [])
        ++ (if wordSearch false ("Defender") c then [(("Defender") : String)] else [])
  if a.isEmpty then [] else [(("audience"), SbVal.slist a)]

/-- One attempt of \[Download[^\]]*\]\(([^)]+)\) (IGNORECASE). -/
def downloadAt (s : List Char) : Option (String × List Char) :=
  match s with
  | '[' :: r0 =>
    (match stripIC (chars ("Download")) r0 with
     | some r1 =>
       (match spanNE ']' r1 with
        | (_, ']' :: '(' :: r2) =>
          (match spanNE ')' r2 with
           | (body, ')' :: rest) =>
             if body.isEmpty then none else some (String.mk body, rest)
           | _ => none)
        | _ => none)
     | none => none)
  | _ => none

def downloadEntry (c : List Char) : List (String × SbVal) :=
  let ds := findAll downloadAt c
  if ds.isEmpty then [] else [(("download_links"), SbVal.slist ds)]

/-- The heading of ###?\s*Code\s*Repositor(?:y|ies) (IGNORECASE); the
optional third # and the y|ies alternation are at disjoint commit
points, so committing is faithful. -/
def repoHeaderAt (s : List Char) : Option (List Char) :=
  match stripCS (chars ("##")) s with
  | none => none
  | some r0 =>
    (match stripIC (chars ("Code"))
        (dropSpaces (match r0 with
                     | '#' :: t => t
                     | _ => r0)) with
     | none => none
     | some r3 =>
       (match stripIC (chars ("Repositor")) (dropSpaces r3) with
        | none => none
        | some r5 =>
          (match stripIC (chars ("y")) r5 with
           | some r6 => some r6
           | none => stripIC (chars ("ies")) r5)))

/-- The non-greedy .*?(?=###?|\Z) with DOTALL: everything up to the
next "##" or the end of the text. -/
def upToHashes : List Char → List Char
  | [] => []
  | c :: cs => if startsWithCS (chars ("##")) (c :: cs) then [] else c :: upToHashes cs

def capLen (s rest : List Char) : List Char := s.take (s.length - rest.length)

/-- re.search of the code-repository section pattern: group(0) of the
leftmost match (heading plus body up to the next heading or end). -/
def findRepoSection : List Char → Option (List Char)
  | [] => none
  | c :: cs =>
    match repoHeaderAt (c :: cs) with
    | some rest => some (capLen (c :: cs) rest ++ upToHashes rest)
    | none => findRepoSection cs

/-- One attempt of \[([^\]]+)\]\((https?://github\.com/[^)]+)\)
(IGNORECASE); the code keeps only the url capture. -/
def repoLinkAt (s : List Char) : Option (String × List Char) :=
  match s with
  | '[' :: r0 =>
    (match spanNE ']' r0 with
     | (nm, ']' :: '(' :: r2) =>
       if nm.isEmpty then none else socialTail [("github.com")] r2
     | _ => none)
  | _ => none

def reposEntry (c : List Char) : List (String × SbVal) :=
  match findRepoSection c with
  | none => []
  | some sec =>
    (let rs := findAll repoLinkAt sec
     if rs.isEmpty then [] else [(("code_repositories"), SbVal.slist rs)])

/-- Apache\s*2(?:\.0)?(?:\s*License)? at a position; the two trailing
optional groups cannot affect whether a match exists and are omitted. -/
def matchApacheAt (s : List Char) : Bool :=
  match stripIC (chars ("Apache")) s with
  | some r => headIs '2' (dropSpaces r)
  | none => false

/-- MIT\s*License at a position. -/
def matchMITAt (s : List Char) : Bool :=
  match stripIC (chars ("MIT")) s with
  | some r => (stripIC (chars ("License")) (dropSpaces r)).isSome
  | none => false

/-- The \s*v?<digit> tail shared by the GPL-family patterns. -/
def gplTail (d : Char) (r : List Char) : Bool :=
  headIs d (optIC 'v' (dropSpaces r))

def matchLGPL3At (s : List Char) : Bool :=
  match stripIC (chars ("LGPL")) s with
  | some r => gplTail '3' r
  | none => false

def matchAGPL3At (s : List Char) : Bool :=
  match stripIC (chars ("AGPL")) s with
  | some r => gplTail '3' r
  | none => false

def matchGPL3At (s : List Char) : Bool :=
  match stripIC (chars ("GPL")) s with
  | some r => gplTail '3' r
  | none => false

def matchGPL2At (s : List Char) : Bool :=
  match stripIC (chars ("GPL")) s with
  | some r => gplTail '2' r
  | none => false

def matchCCAt (s : List Char) : Bool := (stripIC (chars ("Creative Commons")) s).isSome

def matchCCBYSAAt (s : List Char) : Bool := (stripIC (chars ("CC BY-SA")) s).isSome

def matchCCBYAt (s : List Char) : Bool := (stripIC (chars ("CC BY")) s).isSome

/-- The license_patterns list, tried in order, first match wins. -/
def licenseEntry (c : List Char) : List (String × SbVal) :=
  if reSearchB matchApacheAt c then [(("license"), SbVal.s ("Apache 2.0"))]
  else if reSearchB matchMITAt c then [(("license"), SbVal.s ("MIT"))]
  else if reSearchB matchLGPL3At c then [(("license"), SbVal.s ("LGPL 3.0"))]
  else if reSearchB matchAGPL3At c then [(("license"), SbVal.s ("AGPL 3.0"))]
  else if reSearchB matchGPL3At c then [(("license"), SbVal.s ("GPL 3.0"))]
  else if reSearchB matchGPL2At c then [(("license"), SbVal.s ("GPL 2.0"))]
  else if wordSearch true ("GPL") c then [(("license"), SbVal.s ("GPL"))]
  else if reSearchB matchCCAt c then [(("license"), SbVal.s ("Creative Commons"))]
  else if reSearchB matchCCBYSAAt c then [(("license"), SbVal.s ("CC BY-SA"))]
  else if reSearchB matchCCBYAt c then [(("license"), SbVal.s ("CC BY"))]
  else []

/-- parse_sidebar_content(content): empty content short-circuits to an
empty dict; otherwise each pattern group contributes its entries in the
source's insertion order (the keys of the groups are pairwise distinct,
so concatenation is the dict the loop builds). -/
def parse_sidebar_content (content : List Char) : List (String × SbVal) :=
  if content.isEmpty then []
  else
    leadersEntry content ++ socialEntries content ++ classEntry content
    ++ typeEntry content ++ audienceEntry content ++ downloadEntry content
    ++ reposEntry content ++ licenseEntry content

/-- Python truthiness of a fetched body: an empty string is falsy, so
both fetch_sidebar_files ("if info_content:") and scan_repo
("if content:") ignore empty fetched files. -/
def gate : Option (List Char) → Option (List Char)
  | some (c :: cs) => some (c :: cs)
  | _ => none

/-- fetch_sidebar_files: the optional info.md and leaders.md bodies
(the keys info_md / leaders_md of the sidebar_data dict), each present
only when the fetch returned truthy text.  The ff oracle gives
fetch_file's outcome per filename on its non-raising executions. -/
def fetch_sidebar_files (ff : String → Option (List Char)) :
    Option (List Char) × Option (List Char) :=
  (gate (ff ("info.md")), gate (ff ("leaders.md")))

/-- scan_repo(entry): on a cache hit return the cached record with only
the archived flag refreshed (the dict is never empty, hence truthy); a
malformed cache file's exception propagates; on a miss fetch index.md
and the sidebar files, extract, merge the two sidebar dicts with
dict.update (leaders.md second), and build the result record.  The
save_cache write-through is a side effect outside this value. -/
def scan_repo (cacheFile : Option CacheFile) (nowSec : Int) (archived : Bool)
    (owner repo : String) (ff : String → Option (List Char))
    (yamlParse : List Char → Option YamlDoc) : Except Unit Record :=
  match load_cache cacheFile nowSec with
  | Except.error e => Except.error e
  | Except.ok (some cached) => Except.ok { cached with archived := archived }
  | Except.ok none =>
    let content := gate (ff ("index.md"))
    let metadata :=
      match content with
      | some c => extract_front_matter yamlParse c
      | none => []
    let sb := fetch_sidebar_files ff
    let srcs :=
      (match content with
       | some _ => [(("index.md") : String)]
       | none => [])
      ++ (match sb.1 with
          | some _ => [(("info.md") : String)]
          | none => [])
      ++ (match sb.2 with
          | some _ => [(("leaders.md") : String)]
          | none => [])
    let sidebar1 :=
      match sb.1 with
      | some ic => dictUpdate [] (parse_sidebar_content ic)
      | none => []
    let sidebar2 :=
      match sb.2 with
      | some lc => dictUpdate sidebar1 (parse_sidebar_content lc)
      | none => sidebar1
    Except.ok
      { repo := owner ++ ("/") ++ repo,
        source_file := if srcs.isEmpty then none else some (String.intercalate (", ") srcs),
        metadata := metadata,
        sidebar_metadata := sidebar2,
        archived := archived }

/-- The values a flattened report row can hold, as Python values. -/
inductive PyVal where
  | vnull
  | vbool (b : Bool)
  | vint (n : Int)
  | vstr (s : String)
  | vlist (l : List PyVal)

/-
Python == on these values: booleans are numeric (False = 0, True = 1),
strings compare by content, lists elementwise, None only to None, any
other cross-type comparison is False.
-/
mutual
def pyEq : PyVal → PyVal → Bool
  | PyVal.vnull, PyVal.vnull => true
  | PyVal.vbool a, PyVal.vbool b => a = b
  | PyVal.vbool a, PyVal.vint n => (if a then (1 : Int) else 0) = n
  | PyVal.vint n, PyVal.vbool b => n = (if b then (1 : Int) else 0)
  | PyVal.vint a, PyVal.vint b => a = b
  | PyVal.vstr a, PyVal.vstr b => a = b
  | PyVal.vlist a, PyVal.vlist b => pyEqL a b
  | _, _ => false
def pyEqL : List PyVal → List PyVal → Bool
  | [], [] => true
  | a :: as', b :: bs => pyEq a b && pyEqL as' bs
  | _, _ => false
end

/-- The presence-matrix cell rule from main:
"✔" if f in item and item[f] not in [None, "", [], False] else "" —
the membership test compares with Python ==. -/
def matrixCell (item : List (String × PyVal)) (f : String) : String :=
  match lookupStr f item with
  | some v =>
    if pyEq v PyVal.vnull || pyEq v (PyVal.vstr ("")) || pyEq v (PyVal.vlist [])
        || pyEq v (PyVal.vbool false)
    then ("") else ("✔")
  | none => ("")

/-- One presence-matrix row over the combined field list. -/
def matrixRow (item : List (String × PyVal)) (fields : List String) :
    List (String × String) :=
  fields.map (fun f => (f, matrixCell item f))

/-- A concrete result record for witnesses. -/
def recEx : Record :=
  { repo := ("OWASP/example"), source_file := some ("index.md"), metadata := [],
    sidebar_metadata := [], archived := false }

/-- A concrete response oracle: main missing (404), master succeeds. -/
def respEx : String → Resp :=
  fun br => if br = ("main") then Resp.status 404 [] else Resp.status 200 (chars ("hello"))
/-- The fixed key list of parse_sidebar_content, in insertion order. -/
def sidebarKeys : List String :=
  [("leaders_list"), ("social_twitter"), ("social_facebook"), ("social_linkedin"),
   ("social_youtube"), ("social_meetup"), ("project_classification"), ("sidebar_type"),
   ("audience"), ("download_links"), ("code_repositories"), ("license")]
/-- A concrete fetch oracle for the merge witness: info.md carries an
MIT License mention, leaders.md a GPL v2 mention, index.md is absent. -/
def ffEx : String → Option (List Char) :=
  fun fn =>
    if fn = ("info.md") then some (chars ("MIT License"))
    else if fn = ("leaders.md") then some (chars ("GPL v2")) else none
/-- An occurrence of the substring "---" at position i of the text. -/
def tripleAtB (c : List Char) (i : Nat) : Bool :=
  startsWithCS (chars ("---")) (c.drop i)
/-- The block the search ---(.*?)--- finds: an opening occurrence at i
and a closing occurrence at j, non-overlapping (i + 3 ≤ j), where no
earlier position than i opens a completable block and j is the earliest
closing for i. -/
def FirstBlock (c : List Char) (i j : Nat) : Prop :=
  tripleAtB c i = true ∧ tripleAtB c j = true ∧ i + 3 ≤ j ∧
  (∀ k, k < i → tripleAtB c k = true → ∀ m, k + 3 ≤ m → tripleAtB c m = false) ∧
  (∀ m, i + 3 ≤ m → m < j → tripleAtB c m = false)
/-- The lines of a text, split at newline characters. -/
def linesOf : List Char → List (List Char)
  | [] => [[]]
  | c :: cs =>
    if c = '\n' then [] :: linesOf cs
    else
      match linesOf cs with
      | l :: ls => (c :: l) :: ls
      | [] => [[c]]
/-- A concrete YAML oracle mapping the block "b" to a one-entry dict. -/
def parseC5 : List Char → Option YamlDoc :=
  fun s =>
    if s = chars ("b") then some (YamlDoc.ymap [(("k"), YLeaf.yscalar ("v"))]) else none

/-- Helper: unfold one branch attempt of fetch_file when a response
arrived. -/
theorem tryBranches_cons_status (resp : String → Resp) (b : String) (rest : List String)
    (c : Nat) (bd : List Char) (h : resp b = Resp.status c bd) :
    tryBranches resp (b :: rest) =
      if c = 200 then Except.ok (some bd) else tryBranches resp rest := by
  simp only [tryBranches, h]

/-- Helper: the matrix cell once the lookup has resolved to a value. -/
theorem matrixCell_eq_some (item : List (String × PyVal)) (f : String) (v : PyVal)
    (hv : lookupStr f item = some v) :
    matrixCell item f =
      if pyEq v PyVal.vnull || pyEq v (PyVal.vstr ("")) || pyEq v (PyVal.vlist [])
          || pyEq v (PyVal.vbool false)
      then ("") else ("✔") := by
  simp only [matrixCell, hv]

/-- Helper: the matrix cell when the field is absent from the record. -/
theorem matrixCell_eq_none (item : List (String × PyVal)) (f : String)
    (hv : lookupStr f item = none) : matrixCell item f = ("") := by
  simp only [matrixCell, hv]

/-- C1: for a well-formed cache entry, load_cache returns the stored
record when now - timestamp ≤ 24 hours and absent when now - timestamp
exceeds 24 hours; the comparison is strict, so an entry aged exactly 24
hours is still a hit. -/
theorem load_cache_ttl (rec : Record) (ts nowSec : Int) :
    (nowSec - ts ≤ CACHE_TTL_HOURS * 3600 →
      load_cache (some (CacheFile.entry ts rec)) nowSec = Except.ok (some rec)) ∧
    (CACHE_TTL_HOURS * 3600 < nowSec - ts →
      load_cache (some (CacheFile.entry ts rec)) nowSec = Except.ok none) := by
  constructor
  · intro h
    simp only [load_cache]
    rw [if_neg (by simp only [CACHE_TTL_HOURS] at h ⊢; omega)]
  · intro h
    simp only [load_cache]
    rw [if_pos (by simp only [CACHE_TTL_HOURS] at h ⊢; omega)]

/-- Witness for C1: with timestamp 0, a read at 86400 s (exactly 24 h)
and at 86340 s (23 h 59 m) hits, a read at 86401 s (24 h + 1 s) misses. -/
theorem load_cache_ttl_witness :
    load_cache (some (CacheFile.entry 0 recEx)) 86400 = Except.ok (some recEx) ∧
    load_cache (some (CacheFile.entry 0 recEx)) 86340 = Except.ok (some recEx) ∧
    load_cache (some (CacheFile.entry 0 recEx)) 86401 = Except.ok none :=
  ⟨(load_cache_ttl recEx 0 86400).1 (by norm_num [CACHE_TTL_HOURS]),
   (load_cache_ttl recEx 0 86340).1 (by norm_num [CACHE_TTL_HOURS]),
   (load_cache_ttl recEx 0 86401).2 (by norm_num [CACHE_TTL_HOURS])⟩

/-- C2 counterexample: when every branch attempt raises a transport
exception, fetch_file propagates the exception; it does not return
absent as the claim states. -/
theorem fetch_file_exn_cex :
    fetch_file (fun _ => Resp.exn) = Except.error () ∧
    fetch_file (fun _ => Resp.exn) ≠ Except.ok none :=
  ⟨rfl, fun h => Except.noConfusion h⟩

/-- C2 amended: fetch_file returns the body of the first branch whose
response has status 200, returns absent when both branches produce
responses with non-200 status, and a transport exception propagates
(it is not converted to absent). -/
theorem fetch_file_amended (resp : String → Resp) :
    (∀ body, resp ("main") = Resp.status 200 body →
      fetch_file resp = Except.ok (some body)) ∧
    (∀ c b body, resp ("main") = Resp.status c b → c ≠ 200 →
      resp ("master") = Resp.status 200 body →
      fetch_file resp = Except.ok (some body)) ∧
    ((∀ br, br ∈ [("main" : String), ("master")] →
        ∃ c b, resp br = Resp.status c b ∧ c ≠ 200) →
      fetch_file resp = Except.ok none) := by
  refine ⟨fun body h => ?_, fun c b body h1 hc h2 => ?_, fun h => ?_⟩
  · unfold fetch_file
    rw [tryBranches_cons_status resp _ _ _ _ h, if_pos rfl]
  · unfold fetch_file
    rw [tryBranches_cons_status resp _ _ _ _ h1, if_neg hc,
      tryBranches_cons_status resp _ _ _ _ h2, if_pos rfl]
  · obtain ⟨c1, b1, hm, hc1⟩ := h ("main") (by simp)
    obtain ⟨c2, b2, hs, hc2⟩ := h ("master") (by simp)
    unfold fetch_file
    rw [tryBranches_cons_status resp _ _ _ _ hm, if_neg hc1,
      tryBranches_cons_status resp _ _ _ _ hs, if_neg hc2]
    rfl

/-- Witness for C2 amended: with a 404 on main and a 200 on master,
fetch_file returns master's body. -/
theorem fetch_file_amended_witness :
    fetch_file respEx = Except.ok (some (chars ("hello"))) :=
  (fetch_file_amended respEx).2.1 404 [] (chars ("hello")) rfl (by decide) rfl

/-- C3 counterexample: on a malformed cache file load_cache raises (the
json.load / fromisoformat exception propagates, there is no try/except);
it does not return absent as the claim states. -/
theorem load_cache_malformed_cex :
    load_cache (some CacheFile.malformed) 0 = Except.error () ∧
    load_cache (some CacheFile.malformed) 0 ≠ Except.ok none :=
  ⟨rfl, fun h => Except.noConfusion h⟩

/-- C3 amended: a missing cache file yields absent (a cache miss), but a
malformed cache file makes the cache get operation raise the parse
error rather than return absent. -/
theorem load_cache_malformed (nowSec : Int) :
    load_cache (some CacheFile.malformed) nowSec = Except.error () ∧
    load_cache none nowSec = Except.ok none :=
  ⟨rfl, rfl⟩

/-- C4 counterexample: the separator is not escaped, so the distinct
pairs (a__b, c) and (a, b__c) derive the same cache file name. -/
theorem cache_path_collision_cex :
    cache_path ("a__b") ("c") = cache_path ("a") ("b__c") ∧
    ¬(("a__b" : String) = ("a") ∧ ("c" : String) = ("b__c")) := by
  constructor
  · rfl
  · intro h
    exact absurd h.1 (by decide)

/-- C10: a row field holding the integer 0 is marked not-present,
because the membership test of the cell rule compares with Python
equality, under which 0 equals False. -/
theorem matrixCell_zero (item : List (String × PyVal)) (f : String)
    (h : lookupStr f item = some (PyVal.vint 0)) :
    matrixCell item f = ("") ∧ pyEq (PyVal.vint 0) (PyVal.vbool false) = true := by
  constructor
  · rw [matrixCell_eq_some item f (PyVal.vint 0) h]
    rfl
  · rfl

/-- Witness for C10 at a concrete row. -/
theorem matrixCell_zero_witness :
    matrixCell [(("stars_count"), PyVal.vint 0)] ("stars_count") = ("") ∧
    pyEq (PyVal.vint 0) (PyVal.vbool false) = true :=
  matrixCell_zero [(("stars_count"), PyVal.vint 0)] ("stars_count") rfl

/-- C7 counterexample: the field exists and its value, the integer 0, is
literally none of null, empty string, empty list, false — yet the cell
is marked not-present, refuting the claimed if-and-only-if. -/
theorem matrixCell_zero_cex :
    lookupStr ("stars") [(("stars"), PyVal.vint 0)] = some (PyVal.vint 0) ∧
    (PyVal.vint 0 ≠ PyVal.vnull ∧ PyVal.vint 0 ≠ PyVal.vstr ("") ∧
      PyVal.vint 0 ≠ PyVal.vlist [] ∧ PyVal.vint 0 ≠ PyVal.vbool false) ∧
    matrixCell [(("stars"), PyVal.vint 0)] ("stars") = ("") := by
  refine ⟨rfl, ⟨?_, ?_, ?_, ?_⟩, rfl⟩ <;> intro h <;> exact PyVal.noConfusion h

/-- C7 amended: a cell is marked present iff the field exists on the
record and its value compares unequal, under Python equality, to each
of null, empty string, empty list and false (so numeric 0, which equals
False, is also not-present); every cell is either the check mark or
blank; an existing field with empty-string value is blank. -/
theorem matrixCell_rule (item : List (String × PyVal)) (f : String) :
    (matrixCell item f = ("✔") ↔
      ∃ v, lookupStr f item = some v ∧ pyEq v PyVal.vnull = false ∧
        pyEq v (PyVal.vstr ("")) = false ∧ pyEq v (PyVal.vlist []) = false ∧
        pyEq v (PyVal.vbool false) = false) ∧
    (matrixCell item f = ("✔") ∨ matrixCell item f = ("")) ∧
    (lookupStr f item = some (PyVal.vstr ("")) → matrixCell item f = ("")) := by
  rcases hv : lookupStr f item with _ | v
  · have hm := matrixCell_eq_none item f hv
    refine ⟨⟨fun h => ?_, fun h => ?_⟩, Or.inr hm, fun h => ?_⟩
    · rw [hm] at h
      exact absurd h (by decide)
    · obtain ⟨w, hw, -⟩ := h
      exact Option.noConfusion hw
    · exact Option.noConfusion h
  · have hm := matrixCell_eq_some item f v hv
    by_cases hc : (pyEq v PyVal.vnull || pyEq v (PyVal.vstr ("")) || pyEq v (PyVal.vlist [])
        || pyEq v (PyVal.vbool false)) = true
    · have hm2 : matrixCell item f = ("") := by rw [hm, if_pos hc]
      refine ⟨⟨fun h => ?_, fun h => ?_⟩, Or.inr hm2, fun _ => hm2⟩
      · rw [hm2] at h
        exact absurd h (by decide)
      · obtain ⟨w, hw, h1, h2, h3, h4⟩ := h
        injection hw with hw
        subst hw
        rw [h1, h2, h3, h4] at hc
        simp at hc
    · have hc' := hc
      simp only [Bool.or_eq_true, not_or, Bool.not_eq_true] at hc'
      obtain ⟨⟨⟨h1, h2⟩, h3⟩, h4⟩ := hc'
      have hm2 : matrixCell item f = ("✔") := by rw [hm, if_neg hc]
      refine ⟨⟨fun _ => ⟨v, rfl, h1, h2, h3, h4⟩, fun _ => hm2⟩, Or.inl hm2, fun hes => ?_⟩
      injection hes with hes
      subst hes
      exact absurd h2 (by decide)

/-- Witness for C7 amended: a record whose license field is the empty
string renders as not-present despite the key existing. -/
theorem matrixCell_rule_witness :
    matrixCell [(("license"), PyVal.vstr (""))] ("license") = ("") :=
  (matrixCell_rule [(("license"), PyVal.vstr (""))] ("license")).2.2 rfl

/-- C9: on the example leaders file, sidebar extraction yields exactly
one leader, Jane Doe with her email, and does not add a bare Repo Link
entry (it is filtered as resource-like). -/
theorem leaders_example_extraction :
    lookupStr ("leaders_list")
      (parse_sidebar_content
        (chars ("### Leaders\n* [Jane Doe](mailto:jane@example.org)\n* [Repo Link](https://github.com/x)\n"))) =
    some (SbVal.leaders [{ name := ("Jane Doe"), email := some ("jane@example.org") }]) := by
  decide

/-- Helper: strings are equal when their character lists are. -/
theorem string_data_inj {a b : String} (h : a.data = b.data) : a = b := by
  cases a
  cases b
  exact congrArg String.mk h

/-- Helper: an equation around a double-underscore separator splits
uniquely when neither left part contains an underscore. -/
theorem underscore_split (l₁ l₂ r₁ r₂ : List Char) :
    '_' ∉ l₁ → '_' ∉ l₂ → l₁ ++ '_' :: '_' :: r₁ = l₂ ++ '_' :: '_' :: r₂ →
    l₁ = l₂ ∧ r₁ = r₂ := by
  induction l₁ generalizing l₂ with
  | nil =>
    intro _ h₂ h
    cases l₂ with
    | nil =>
      simp only [List.nil_append] at h
      injection h with _ h
      injection h with _ h
      exact ⟨rfl, h⟩
    | cons b t =>
      simp only [List.nil_append, List.cons_append] at h
      injection h with hb _
      exact absurd (List.mem_cons.mpr (Or.inl hb)) h₂
  | cons a s ih =>
    intro h₁ h₂ h
    cases l₂ with
    | nil =>
      simp only [List.nil_append, List.cons_append] at h
      injection h with ha _
      exact absurd (List.mem_cons.mpr (Or.inl ha.symm)) h₁
    | cons b t =>
      simp only [List.cons_append] at h
      injection h with hab h
      obtain ⟨he, hr⟩ := ih t (fun hm => h₁ (List.mem_cons.mpr (Or.inr hm)))
        (fun hm => h₂ (List.mem_cons.mpr (Or.inr hm))) h
      exact ⟨by rw [hab, he], hr⟩

/-- C4 amended: cache key derivation is injective on pairs whose owner
contains no underscore: equal cache paths force equal owners and repo
names.  (In general it is not injective: when owner or repo contain
the separator, distinct pairs can collide, as the counterexample
shows.) -/
theorem cache_path_inj (o₁ r₁ o₂ r₂ : String)
    (h₁ : '_' ∉ o₁.data) (h₂ : '_' ∉ o₂.data)
    (h : cache_path o₁ r₁ = cache_path o₂ r₂) : o₁ = o₂ ∧ r₁ = r₂ := by
  have hd := congrArg String.data h
  simp only [cache_path, String.data_append, List.append_assoc] at hd
  have hd2 := List.append_cancel_left hd
  simp only [List.cons_append, List.nil_append] at hd2
  obtain ⟨ho, hr⟩ := underscore_split o₁.data o₂.data _ _ h₁ h₂ hd2
  exact ⟨string_data_inj ho, string_data_inj (List.append_cancel_right hr)⟩

/-- Witness for C4 amended at underscore-free concrete inputs. -/
theorem cache_path_inj_witness :
    ("OWASP" : String) = ("OWASP") ∧ ("BLT" : String) = ("BLT") :=
  cache_path_inj ("OWASP") ("BLT") ("OWASP") ("BLT") (by decide) (by decide) rfl

/-- Helper: lookup misses a list whose keys omit the key. -/
theorem lookup_none_of_not_mem {α : Type} (k : String) (l : List (String × α))
    (h : k ∉ l.map Prod.fst) : lookupStr k l = none := by
  induction l with
  | nil => rfl
  | cons p rest ih =>
    obtain ⟨k', v⟩ := p
    simp only [List.map_cons, List.mem_cons, not_or] at h
    simp only [lookupStr]
    rw [if_neg h.1]
    exact ih h.2

/-- Helper: lookup skips a left part it misses. -/
theorem lookup_append_of_none {α : Type} (k : String) {a : List (String × α)}
    (b : List (String × α)) (h : lookupStr k a = none) :
    lookupStr k (a ++ b) = lookupStr k b := by
  induction a with
  | nil => rfl
  | cons p rest ih =>
    obtain ⟨k', v⟩ := p
    simp only [lookupStr, List.cons_append] at h ⊢
    by_cases hk : k = k'
    · rw [if_pos hk] at h
      exact Option.noConfusion h
    · rw [if_neg hk] at h ⊢
      exact ih h

theorem leadersEntry_keys (c : List Char) :
    List.Sublist ((leadersEntry c).map Prod.fst) [("leaders_list" : String)] := by
  unfold leadersEntry
  repeat' split <;> simp_all

theorem socialEntry_keys (key : String) (labels doms : List String) (c : List Char) :
    List.Sublist ((socialEntry key labels doms c).map Prod.fst) [key] := by
  unfold socialEntry
  split <;> simp

theorem classEntry_keys (c : List Char) :
    List.Sublist ((classEntry c).map Prod.fst) [("project_classification" : String)] := by
  unfold classEntry
  repeat' split <;> simp_all

theorem typeEntry_keys (c : List Char) :
    List.Sublist ((typeEntry c).map Prod.fst) [("sidebar_type" : String)] := by
  unfold typeEntry
  repeat' split <;> simp_all

theorem audienceEntry_keys (c : List Char) :
    List.Sublist ((audienceEntry c).map Prod.fst) [("audience" : String)] := by
  simp only [audienceEntry]
  repeat' split <;> simp_all

theorem downloadEntry_keys (c : List Char) :
    List.Sublist ((downloadEntry c).map Prod.fst) [("download_links" : String)] := by
  simp only [downloadEntry]
  repeat' split <;> simp_all

theorem reposEntry_keys (c : List Char) :
    List.Sublist ((reposEntry c).map Prod.fst) [("code_repositories" : String)] := by
  unfold reposEntry
  repeat' split <;> simp_all

theorem licenseEntry_keys (c : List Char) :
    List.Sublist ((licenseEntry c).map Prod.fst) [("license" : String)] := by
  unfold licenseEntry
  repeat' split <;> simp_all

theorem socialEntries_keys (c : List Char) :
    List.Sublist ((socialEntries c).map Prod.fst)
      [("social_twitter" : String), ("social_facebook"), ("social_linkedin"),
       ("social_youtube"), ("social_meetup")] := by
  unfold socialEntries
  simp only [List.map_append]
  have h1 := socialEntry_keys ("social_twitter") [("Twitter"), ("X")] [("twitter.com"), ("x.com")] c
  have h2 := socialEntry_keys ("social_facebook") [("Facebook")] [("www.facebook.com"), ("facebook.com")] c
  have h3 := socialEntry_keys ("social_linkedin") [("LinkedIn")] [("www.linkedin.com"), ("linkedin.com")] c
  have h4 := socialEntry_keys ("social_youtube") [("YouTube")] [("www.youtube.com"), ("youtube.com")] c
  have h5 := socialEntry_keys ("social_meetup") [("Meetup.com"), ("Meetup")] [("www.meetup.com"), ("meetup.com")] c
  exact ((((h1.append h2).append h3).append h4).append h5)

/-- The keys of any sidebar extraction are among the fixed key list. -/
theorem parse_sidebar_keys (c : List Char) :
    List.Sublist ((parse_sidebar_content c).map Prod.fst) sidebarKeys := by
  unfold parse_sidebar_content
  split
  · simp
  · simp only [List.map_append]
    have h :=
      ((((((((leadersEntry_keys c).append (socialEntries_keys c)).append
        (classEntry_keys c)).append (typeEntry_keys c)).append
        (audienceEntry_keys c)).append (downloadEntry_keys c)).append
        (reposEntry_keys c)).append (licenseEntry_keys c))
    simpa [sidebarKeys] using h

/-- The keys of any sidebar extraction are pairwise distinct. -/
theorem parse_sidebar_keys_nodup (c : List Char) :
    ((parse_sidebar_content c).map Prod.fst).Nodup :=
  List.Nodup.sublist (parse_sidebar_keys c) (by decide)

/-- Helper: a successful literal match means the text extends the
pattern. -/
theorem startsWith_ex (p : List Char) : ∀ s, startsWithCS p s = true → ∃ t, s = p ++ t := by
  induction p with
  | nil => exact fun s _ => ⟨s, rfl⟩
  | cons a ps ih =>
    intro s h
    cases s with
    | nil => exact absurd h (by simp [startsWithCS, stripCS])
    | cons c cs =>
      by_cases hac : a = c
      · subst hac
        obtain ⟨t, ht⟩ := ih cs (by simpa [startsWithCS, stripCS] using h)
        exact ⟨t, by rw [List.cons_append, ht]⟩
      · exact absurd h (by simp [startsWithCS, stripCS, hac])

/-- Helper: a substring occurrence makes any search succeed whose
matcher accepts every extension of the pattern. -/
theorem reSearchB_of_contains (p : List Char) (m : List Char → Bool)
    (hm : ∀ t, m (p ++ t) = true) :
    ∀ c, containsCS p c = true → reSearchB m c = true := by
  intro c
  induction c with
  | nil =>
    intro h
    simp only [containsCS] at h
    obtain ⟨t, ht⟩ := startsWith_ex p [] (by simpa [startsWithCS] using h)
    simpa [reSearchB, ht] using hm t
  | cons c0 cs ih =>
    intro h
    simp only [containsCS, Bool.or_eq_true] at h
    simp only [reSearchB, Bool.or_eq_true]
    rcases h with h | h
    · obtain ⟨t, ht⟩ := startsWith_ex p _ h
      exact Or.inl (ht ▸ hm t)
    · exact Or.inr (ih h)

/-- Helper: the GPL\s*v?3 pattern matches at the head of any text
beginning with the literal characters of "GPL v3". -/
theorem matchGPL3At_head (t : List Char) :
    matchGPL3At ('G' :: 'P' :: 'L' :: ' ' :: 'v' :: '3' :: t) = true := rfl

/-- Helper: none of the pattern groups before the license group can
produce a "license" key, so the lookup reduces to the license group. -/
theorem lookup_parse_license (c : List Char) (hne : c ≠ []) :
    lookupStr ("license") (parse_sidebar_content c) =
      lookupStr ("license") (licenseEntry c) := by
  have key : ∀ (l : List (String × SbVal)) (ks : List String),
      List.Sublist (l.map Prod.fst) ks → (("license" : String) ∉ ks) →
      lookupStr ("license") l = none := by
    intro l ks hsub hk
    exact lookup_none_of_not_mem _ _ (fun hm => hk (hsub.subset hm))
  have h1 := key _ _ (leadersEntry_keys c) (by decide)
  have h2 := key _ _ (socialEntries_keys c) (by decide)
  have h3 := key _ _ (classEntry_keys c) (by decide)
  have h4 := key _ _ (typeEntry_keys c) (by decide)
  have h5 := key _ _ (audienceEntry_keys c) (by decide)
  have h6 := key _ _ (downloadEntry_keys c) (by decide)
  have h7 := key _ _ (reposEntry_keys c) (by decide)
  unfold parse_sidebar_content
  rw [if_neg (by simp [hne])]
  rw [lookup_append_of_none _ _ (by
    rw [lookup_append_of_none _ _ (by
      rw [lookup_append_of_none _ _ (by
        rw [lookup_append_of_none _ _ (by
          rw [lookup_append_of_none _ _ (by
            rw [lookup_append_of_none _ _ (by
              rw [lookup_append_of_none _ _ h1]
              exact h2)]
            exact h3)]
          exact h4)]
        exact h5)]
      exact h6)]
    exact h7)]

/-- C6 counterexample: the text "Apache 2 and GPL v3" contains both the
substring "GPL v3" and the bare substring "GPL", yet sidebar extraction
sets the license to "Apache 2.0" (an earlier pattern matched first),
not "GPL 3.0". -/
theorem license_gpl3_cex :
    containsCS (chars ("GPL v3")) (chars ("Apache 2 and GPL v3")) = true ∧
    containsCS (chars ("GPL")) (chars ("Apache 2 and GPL v3")) = true ∧
    lookupStr ("license") (parse_sidebar_content (chars ("Apache 2 and GPL v3"))) =
      some (SbVal.s ("Apache 2.0")) ∧
    SbVal.s ("Apache 2.0") ≠ SbVal.s ("GPL 3.0") :=
  ⟨by decide, by decide, by decide, by decide⟩

/-- C6 amended: for every text that contains the substring "GPL v3" and
matches none of the earlier, more specific license patterns (Apache 2,
MIT License, LGPL v3, AGPL v3), sidebar extraction sets the license
field to "GPL 3.0" rather than the generic "GPL": the patterns are
tried in order from most specific to least specific and the first
match wins. -/
theorem license_gpl3_amended (content : List Char)
    (hg : containsCS (chars ("GPL v3")) content = true)
    (hApache : reSearchB matchApacheAt content = false)
    (hMIT : reSearchB matchMITAt content = false)
    (hLGPL : reSearchB matchLGPL3At content = false)
    (hAGPL : reSearchB matchAGPL3At content = false) :
    lookupStr ("license") (parse_sidebar_content content) = some (SbVal.s ("GPL 3.0")) := by
  have hne : content ≠ [] := by
    intro h
    subst h
    exact absurd hg (by decide)
  have hgpl : reSearchB matchGPL3At content = true :=
    reSearchB_of_contains (chars ("GPL v3")) matchGPL3At (fun t => matchGPL3At_head t)
      content hg
  have hlic : licenseEntry content = [(("license"), SbVal.s ("GPL 3.0"))] := by
    simp [licenseEntry, hApache, hMIT, hLGPL, hAGPL, hgpl]
  rw [lookup_parse_license content hne, hlic]
  rfl

/-- Witness for C6 amended on the text "GPL v3" itself. -/
theorem license_gpl3_amended_witness :
    lookupStr ("license") (parse_sidebar_content (chars ("GPL v3"))) =
      some (SbVal.s ("GPL 3.0")) :=
  license_gpl3_amended (chars ("GPL v3")) (by decide) (by decide) (by decide)
    (by decide) (by decide)

/-- Helper: a found key survives appending on the right. -/
theorem lookup_append_some {α : Type} (k : String) {a : List (String × α)}
    (b : List (String × α)) {v : α} (h : lookupStr k a = some v) :
    lookupStr k (a ++ b) = some v := by
  induction a with
  | nil => exact Option.noConfusion h
  | cons p rest ih =>
    obtain ⟨k', v'⟩ := p
    simp only [lookupStr, List.cons_append] at h ⊢
    by_cases hk : k = k'
    · rw [if_pos hk] at h ⊢
      exact h
    · rw [if_neg hk] at h ⊢
      exact ih h

/-- Helper: an absent key has no entry to look up. -/
theorem lookup_none_of_hasKey_false {α : Type} (k : String) (d : List (String × α))
    (h : hasKey k d = false) : lookupStr k d = none := by
  induction d with
  | nil => rfl
  | cons p rest ih =>
    obtain ⟨k', v'⟩ := p
    simp only [hasKey] at h
    simp only [lookupStr]
    by_cases hk : k' = k
    · rw [if_pos hk] at h
      exact Bool.noConfusion h
    · rw [if_neg hk] at h
      rw [if_neg (fun he => hk he.symm)]
      exact ih h

/-- Helper: overwriting a present key makes lookup return the new value. -/
theorem lookup_setKey_self {α : Type} (k : String) (v : α) (d : List (String × α))
    (h : hasKey k d = true) : lookupStr k (setKey k v d) = some v := by
  induction d with
  | nil => exact Bool.noConfusion h
  | cons p rest ih =>
    obtain ⟨k', v'⟩ := p
    simp only [hasKey] at h
    simp only [setKey]
    by_cases hk : k' = k
    · rw [if_pos hk]
      simp [lookupStr]
    · rw [if_neg hk] at h
      rw [if_neg hk]
      simp only [lookupStr]
      rw [if_neg (fun he => hk he.symm)]
      exact ih h

/-- Helper: overwriting one key leaves other lookups unchanged. -/
theorem lookup_setKey_other {α : Type} (k k₀ : String) (v₀ : α) (d : List (String × α))
    (h : k ≠ k₀) : lookupStr k (setKey k₀ v₀ d) = lookupStr k d := by
  induction d with
  | nil => rfl
  | cons p rest ih =>
    obtain ⟨k', v'⟩ := p
    simp only [setKey]
    by_cases hk : k' = k₀
    · rw [if_pos hk]
      simp only [lookupStr]
      rw [if_neg h, if_neg (fun he => h (he.trans hk))]
      exact ih
    · rw [if_neg hk]
      simp only [lookupStr]
      by_cases hkk : k = k'
      · rw [if_pos hkk, if_pos hkk]
      · rw [if_neg hkk, if_neg hkk]
        exact ih

/-- Helper: Python dict assignment makes the assigned key map to the
assigned value. -/
theorem lookup_dictInsert_self {α : Type} (d : List (String × α)) (k : String) (v : α) :
    lookupStr k (dictInsert d k v) = some v := by
  unfold dictInsert
  split
  · exact lookup_setKey_self k v d (by assumption)
  · rw [lookup_append_of_none _ _ (lookup_none_of_hasKey_false k d (by
      rename_i h
      exact Bool.not_eq_true _ ▸ Bool.of_not_eq_true h))]
    simp [lookupStr]

/-- Helper: Python dict assignment leaves other keys unchanged. -/
theorem lookup_dictInsert_other {α : Type} (d : List (String × α)) (k₀ : String) (v₀ : α)
    (k : String) (h : k ≠ k₀) : lookupStr k (dictInsert d k₀ v₀) = lookupStr k d := by
  unfold dictInsert
  split
  · exact lookup_setKey_other k k₀ v₀ d h
  · rcases hl : lookupStr k d with _ | v
    · rw [lookup_append_of_none _ _ hl]
      simp [lookupStr, h]
    · exact lookup_append_some k _ hl

/-- Helper: dict.update with entries that never mention a key leaves
that key's lookup unchanged. -/
theorem lookup_dictUpdate_skip {α : Type} (k : String) (e : List (String × α)) :
    ∀ d, (∀ p ∈ e, p.1 ≠ k) → lookupStr k (dictUpdate d e) = lookupStr k d := by
  induction e with
  | nil => exact fun d _ => rfl
  | cons p rest ih =>
    intro d h
    obtain ⟨k₀, v₀⟩ := p
    simp only [dictUpdate, List.foldl_cons]
    have hs := ih (dictInsert d k₀ v₀) (fun q hq => h q (List.mem_cons.mpr (Or.inr hq)))
    simp only [dictUpdate] at hs
    rw [hs]
    exact lookup_dictInsert_other d k₀ v₀ k
      (fun he => h (k₀, v₀) (List.mem_cons.mpr (Or.inl rfl)) he.symm)

/-- Helper: after dict.update with duplicate-free entries, every key of
the update maps to the updated value. -/
theorem lookup_dictUpdate_mem {α : Type} (k : String) (e : List (String × α)) (v : α) :
    ∀ d, (e.map Prod.fst).Nodup → lookupStr k e = some v →
      lookupStr k (dictUpdate d e) = some v := by
  induction e with
  | nil => exact fun d _ h => Option.noConfusion h
  | cons p rest ih =>
    intro d hnd h
    obtain ⟨k₀, v₀⟩ := p
    simp only [List.map_cons, List.nodup_cons] at hnd
    obtain ⟨hk₀, hrest⟩ := hnd
    simp only [dictUpdate, List.foldl_cons]
    simp only [lookupStr] at h
    by_cases hk : k = k₀
    · rw [if_pos hk] at h
      injection h with h
      subst hk
      have hskip := lookup_dictUpdate_skip k rest (dictInsert d k v₀)
        (fun q hq hqk => hk₀ (hqk ▸ List.mem_map.mpr ⟨q, hq, rfl⟩))
      simp only [dictUpdate] at hskip
      rw [hskip, ← h]
      exact lookup_dictInsert_self d k v₀
    · rw [if_neg hk] at h
      have := ih (dictInsert d k₀ v₀) hrest h
      simpa only [dictUpdate] using this

/-- C8: on a cache miss with both sidebar files fetched non-empty, for
every field that both extractions yield with different values (license,
project_classification, or any other shared key), the merged
sidebar_metadata holds the leaders.md value — leaders.md is parsed
second and dict.update overwrites on key collision. -/
theorem sidebar_merge_leaders_wins
    (nowSec : Int) (archived : Bool) (owner repo : String)
    (ff : String → Option (List Char)) (yamlParse : List Char → Option YamlDoc)
    (infoC leadersC : List Char)
    (hInfo : ff ("info.md") = some infoC) (hInfoNe : infoC ≠ [])
    (hLead : ff ("leaders.md") = some leadersC) (hLeadNe : leadersC ≠ [])
    (k : String) (v₁ v₂ : SbVal)
    (h1 : lookupStr k (parse_sidebar_content infoC) = some v₁)
    (h2 : lookupStr k (parse_sidebar_content leadersC) = some v₂)
    (hne : v₁ ≠ v₂) :
    (scan_repo none nowSec archived owner repo ff yamlParse).map
      (fun r => lookupStr k r.sidebar_metadata) = Except.ok (some v₂) := by
  have hgi : gate (ff ("info.md")) = some infoC := by
    rw [hInfo]
    cases infoC with
    | nil => exact absurd rfl hInfoNe
    | cons a b => rfl
  have hgl : gate (ff ("leaders.md")) = some leadersC := by
    rw [hLead]
    cases leadersC with
    | nil => exact absurd rfl hLeadNe
    | cons a b => rfl
  simp only [scan_repo, load_cache, fetch_sidebar_files, hgi, hgl, Except.map]
  exact congrArg Except.ok
    (lookup_dictUpdate_mem k (parse_sidebar_content leadersC) v₂
      (dictUpdate [] (parse_sidebar_content infoC))
      (parse_sidebar_keys_nodup leadersC) h2)

/-- Witness for C8: info.md yields license MIT, leaders.md yields
license GPL 2.0, and the merged record holds GPL 2.0. -/
theorem sidebar_merge_leaders_wins_witness :
    (scan_repo none 0 false ("OWASP") ("x") ffEx (fun _ => none)).map
      (fun r => lookupStr ("license") r.sidebar_metadata) =
    Except.ok (some (SbVal.s ("GPL 2.0"))) :=
  sidebar_merge_leaders_wins 0 false ("OWASP") ("x") ffEx (fun _ => none)
    (chars ("MIT License")) (chars ("GPL v2")) rfl (by decide) rfl (by decide)
    ("license") (SbVal.s ("MIT")) (SbVal.s ("GPL 2.0")) (by decide) (by decide) (by decide)

theorem tripleAtB_nil (i : Nat) : tripleAtB [] i = false := by
  simp [tripleAtB, List.drop_nil]
  rfl

theorem tripleAtB_succ (a : Char) (c : List Char) (i : Nat) :
    tripleAtB (a :: c) (i + 1) = tripleAtB c i := rfl

theorem tripleAtB_zero (c : List Char) :
    tripleAtB c 0 = startsWithCS (chars ("---")) c := rfl

theorem tripleAtB_drop (c : List Char) (d m : Nat) :
    tripleAtB (c.drop d) m = tripleAtB c (m + d) := by
  simp [tripleAtB, List.drop_drop, Nat.add_comm]

/-- The closing-delimiter scan fails exactly when no "---" occurs. -/
theorem splitAt_none (c : List Char) :
    splitAtTriple c = none ↔ ∀ j, tripleAtB c j = false := by
  induction c with
  | nil =>
    constructor
    · intro _ j
      exact tripleAtB_nil j
    · intro _
      rfl
  | cons a cs ih =>
    by_cases h0 : startsWithCS (chars ("---")) (a :: cs) = true
    · constructor
      · intro h
        simp [splitAtTriple, h0] at h
      · intro hall
        have h00 := hall 0
        rw [tripleAtB_zero, h0] at h00
        exact Bool.noConfusion h00
    · have h0' : startsWithCS (chars ("---")) (a :: cs) = false := by simpa using h0
      cases hcs : splitAtTriple cs with
      | none =>
        constructor
        · intro _ j
          cases j with
          | zero => rw [tripleAtB_zero]; exact h0'
          | succ j' => rw [tripleAtB_succ]; exact (ih.mp hcs) j'
        · intro _
          simp [splitAtTriple, h0', hcs]
      | some x =>
        constructor
        · intro h
          simp [splitAtTriple, h0', hcs] at h
        · intro hall
          have hn : splitAtTriple cs = none := ih.mpr (fun j => by
            have := hall (j + 1)
            rwa [tripleAtB_succ] at this)
          rw [hcs] at hn
          exact Option.noConfusion hn

/-- The closing-delimiter scan returns exactly the characters before
the first occurrence of "---". -/
theorem splitAt_some (c : List Char) : ∀ inn, splitAtTriple c = some inn ↔
    ∃ j, tripleAtB c j = true ∧ (∀ k, k < j → tripleAtB c k = false) ∧ inn = c.take j := by
  induction c with
  | nil =>
    intro inn
    constructor
    · intro h
      exact Option.noConfusion h
    · rintro ⟨j, hj, -, -⟩
      rw [tripleAtB_nil] at hj
      exact Bool.noConfusion hj
  | cons a cs ih =>
    intro inn
    by_cases h0 : startsWithCS (chars ("---")) (a :: cs) = true
    · constructor
      · intro h
        have hinn : inn = [] := by
          simp [splitAtTriple, h0] at h
          exact h
        refine ⟨0, by rwa [tripleAtB_zero], fun k hk => absurd hk (Nat.not_lt_zero k),
          by simp [hinn]⟩
      · rintro ⟨j, hj, hmin, hinn⟩
        have hj0 : j = 0 := by
          by_contra hne
          have h00 := hmin 0 (Nat.pos_of_ne_zero hne)
          rw [tripleAtB_zero, h0] at h00
          exact Bool.noConfusion h00
        subst hj0
        simp [splitAtTriple, h0, hinn]
    · have h0' : startsWithCS (chars ("---")) (a :: cs) = false := by simpa using h0
      cases hcs : splitAtTriple cs with
      | none =>
        have hall := (splitAt_none cs).mp hcs
        constructor
        · intro h
          simp [splitAtTriple, h0', hcs] at h
        · rintro ⟨j, hj, hmin, hinn⟩
          cases j with
          | zero =>
            rw [tripleAtB_zero, h0'] at hj
            exact Bool.noConfusion hj
          | succ j' =>
            rw [tripleAtB_succ, hall j'] at hj
            exact Bool.noConfusion hj
      | some x =>
        obtain ⟨j', hj', hmin', hx⟩ := (ih x).mp hcs
        constructor
        · intro h
          have hinn : inn = a :: x := by
            simp [splitAtTriple, h0', hcs] at h
            exact h.symm
          refine ⟨j' + 1, by rwa [tripleAtB_succ], ?_, ?_⟩
          · intro k hk
            cases k with
            | zero => rw [tripleAtB_zero]; exact h0'
            | succ k' =>
              rw [tripleAtB_succ]
              exact hmin' k' (Nat.lt_of_succ_lt_succ hk)
          · rw [hinn, hx, List.take_succ_cons]
        · rintro ⟨j, hj, hmin, hinn⟩
          cases j with
          | zero =>
            rw [tripleAtB_zero, h0'] at hj
            exact Bool.noConfusion hj
          | succ j'' =>
            rw [tripleAtB_succ] at hj
            have heq : j'' = j' := by
              rcases Nat.lt_trichotomy j'' j' with hlt | heq | hgt
              · have hc := hmin' j'' hlt
                rw [hc] at hj
                exact Bool.noConfusion hj
              · exact heq
              · have hc := hmin (j' + 1) (Nat.succ_lt_succ hgt)
                rw [tripleAtB_succ, hj'] at hc
                exact Bool.noConfusion hc
            subst heq
            simp [splitAtTriple, h0', hcs, hinn, hx, List.take_succ_cons]

/-- The regex search finds no block exactly when the text has no two
non-overlapping occurrences of "---". -/
theorem reSearch_none (c : List Char) : reSearchTriple c = none ↔
    ∀ i j, i + 3 ≤ j → tripleAtB c i = true → tripleAtB c j = false := by
  induction c with
  | nil =>
    constructor
    · intro _ i j _ _
      exact tripleAtB_nil j
    · intro _
      rfl
  | cons a cs ih =>
    by_cases h0 : startsWithCS (chars ("---")) (a :: cs) = true
    · cases hsp : splitAtTriple ((a :: cs).drop 3) with
      | none =>
        have hall := (splitAt_none _).mp hsp
        have hno3 : ∀ m, 3 ≤ m → tripleAtB (a :: cs) m = false := by
          intro m hm
          have h2 := hall (m - 3)
          rwa [tripleAtB_drop, Nat.sub_add_cancel hm] at h2
        have hsp2 : splitAtTriple (cs.drop 2) = none := hsp
        have hLHS : reSearchTriple (a :: cs) = reSearchTriple cs := by
          simp [reSearchTriple, h0, hsp2]
        constructor
        · intro _ i j hij _
          exact hno3 j (by omega)
        · intro _
          rw [hLHS]
          exact ih.mpr (fun i j hij hi => by
            have h2 := hno3 (j + 1) (by omega)
            rwa [tripleAtB_succ] at h2)
      | some x =>
        obtain ⟨j₀, hj₀, -, -⟩ := (splitAt_some _ x).mp hsp
        have hsp2 : splitAtTriple (cs.drop 2) = some x := hsp
        have hLHS : reSearchTriple (a :: cs) = some x := by
          simp [reSearchTriple, h0, hsp2]
        constructor
        · intro h
          rw [hLHS] at h
          exact Option.noConfusion h
        · intro hR
          have h3 : tripleAtB (a :: cs) (j₀ + 3) = true := by
            rwa [← tripleAtB_drop]
          have h2 := hR 0 (j₀ + 3) (by omega) (by rwa [tripleAtB_zero])
          rw [h2] at h3
          exact Bool.noConfusion h3
    · have h0' : startsWithCS (chars ("---")) (a :: cs) = false := by simpa using h0
      have hLHS : reSearchTriple (a :: cs) = reSearchTriple cs := by
        simp [reSearchTriple, h0']
      rw [hLHS, ih]
      constructor
      · intro hR i j hij hi
        cases i with
        | zero =>
          rw [tripleAtB_zero, h0'] at hi
          exact Bool.noConfusion hi
        | succ i' =>
          cases j with
          | zero => omega
          | succ j' =>
            rw [tripleAtB_succ] at hi ⊢
            exact hR i' j' (by omega) hi
      · intro hR i j hij hi
        have h2 := hR (i + 1) (j + 1) (by omega) (by rwa [tripleAtB_succ])
        rwa [tripleAtB_succ] at h2

/-- The regex search returns exactly the material of the leftmost
completable block, up to its earliest closing delimiter. -/
theorem reSearch_some (c : List Char) : ∀ inn, reSearchTriple c = some inn ↔
    ∃ i j, FirstBlock c i j ∧ inn = (c.drop (i + 3)).take (j - (i + 3)) := by
  induction c with
  | nil =>
    intro inn
    constructor
    · intro h
      exact Option.noConfusion h
    · rintro ⟨i, j, ⟨hi, -, -, -, -⟩, -⟩
      rw [tripleAtB_nil] at hi
      exact Bool.noConfusion hi
  | cons a cs ih =>
    intro inn
    by_cases h0 : startsWithCS (chars ("---")) (a :: cs) = true
    · cases hsp : splitAtTriple ((a :: cs).drop 3) with
      | none =>
        have hall := (splitAt_none _).mp hsp
        have hno3 : ∀ m, 3 ≤ m → tripleAtB (a :: cs) m = false := by
          intro m hm
          have h2 := hall (m - 3)
          rwa [tripleAtB_drop, Nat.sub_add_cancel hm] at h2
        have hsp2 : splitAtTriple (cs.drop 2) = none := hsp
        have hLHS : reSearchTriple (a :: cs) = reSearchTriple cs := by
          simp [reSearchTriple, h0, hsp2]
        have hnone : reSearchTriple cs = none := by
          rw [reSearch_none]
          intro i j hij hi
          have h2 := hno3 (j + 1) (by omega)
          rwa [tripleAtB_succ] at h2
        constructor
        · intro h
          rw [hLHS, hnone] at h
          exact Option.noConfusion h
        · rintro ⟨i, j, ⟨-, hj, hij, -, -⟩, -⟩
          have h2 := hno3 j (by omega)
          rw [h2] at hj
          exact Bool.noConfusion hj
      | some x =>
        obtain ⟨j₀, hj₀, hmin₀, hx⟩ := (splitAt_some _ x).mp hsp
        have hsp2 : splitAtTriple (cs.drop 2) = some x := hsp
        have hLHS : reSearchTriple (a :: cs) = some x := by
          simp [reSearchTriple, h0, hsp2]
        have h3 : tripleAtB (a :: cs) (j₀ + 3) = true := by
          rwa [← tripleAtB_drop]
        have hmin3 : ∀ m, 3 ≤ m → m < j₀ + 3 → tripleAtB (a :: cs) m = false := by
          intro m hm hmj
          have h2 := hmin₀ (m - 3) (by omega)
          rwa [tripleAtB_drop, Nat.sub_add_cancel hm] at h2
        constructor
        · intro h
          rw [hLHS] at h
          injection h with h
          refine ⟨0, j₀ + 3, ⟨by rwa [tripleAtB_zero], h3, by omega, ?_, ?_⟩, ?_⟩
          · intro k hk
            exact absurd hk (Nat.not_lt_zero k)
          · intro m hm hmj
            exact hmin3 m (by omega) hmj
          · rw [← h, hx]
            have he : j₀ + 3 - (0 + 3) = j₀ := by omega
            rw [he]
        · rintro ⟨i, j, ⟨hi, hj, hij, hmini, hminj⟩, hinn⟩
          have hi0 : i = 0 := by
            by_contra hne
            have h2 := hmini 0 (Nat.pos_of_ne_zero hne) (by rwa [tripleAtB_zero]) j (by omega)
            rw [h2] at hj
            exact Bool.noConfusion hj
          subst hi0
          have hjeq : j = j₀ + 3 := by
            rcases Nat.lt_trichotomy j (j₀ + 3) with hlt | heq | hgt
            · have h2 := hmin3 j (by omega) hlt
              rw [h2] at hj
              exact Bool.noConfusion hj
            · exact heq
            · have h2 := hminj (j₀ + 3) (by omega) hgt
              rw [h2] at h3
              exact Bool.noConfusion h3
          subst hjeq
          rw [hLHS, hinn, hx]
          have he : j₀ + 3 - (0 + 3) = j₀ := by omega
          rw [he]
    · have h0' : startsWithCS (chars ("---")) (a :: cs) = false := by simpa using h0
      have hLHS : reSearchTriple (a :: cs) = reSearchTriple cs := by
        simp [reSearchTriple, h0']
      rw [hLHS]
      constructor
      · intro h
        obtain ⟨i, j, ⟨hi, hj, hij, hmini, hminj⟩, hinn⟩ := (ih inn).mp h
        refine ⟨i + 1, j + 1,
          ⟨by rwa [tripleAtB_succ], by rwa [tripleAtB_succ], by omega, ?_, ?_⟩, ?_⟩
        · intro k hk htk m hm
          cases k with
          | zero =>
            rw [tripleAtB_zero, h0'] at htk
            exact Bool.noConfusion htk
          | succ k' =>
            cases m with
            | zero => omega
            | succ m' =>
              rw [tripleAtB_succ] at htk ⊢
              exact hmini k' (by omega) htk m' (by omega)
        · intro m hm hmj
          cases m with
          | zero => omega
          | succ m' =>
            rw [tripleAtB_succ]
            exact hminj m' (by omega) (by omega)
        · rw [hinn]
          have h4 : j + 1 - (i + 1 + 3) = j - (i + 3) := by omega
          rw [h4]
          rfl
      · rintro ⟨i, j, ⟨hi, hj, hij, hmini, hminj⟩, hinn⟩
        cases i with
        | zero =>
          rw [tripleAtB_zero, h0'] at hi
          exact Bool.noConfusion hi
        | succ i' =>
          cases j with
          | zero => omega
          | succ j' =>
            refine (ih inn).mpr ⟨i', j',
              ⟨by rwa [tripleAtB_succ] at hi, by rwa [tripleAtB_succ] at hj, by omega, ?_, ?_⟩, ?_⟩
            · intro k hk htk m hm
              have h2 := hmini (k + 1) (by omega) (by rwa [tripleAtB_succ]) (m + 1) (by omega)
              rwa [tripleAtB_succ] at h2
            · intro m hm hmj
              have h2 := hminj (m + 1) (by omega) (by omega)
              rwa [tripleAtB_succ] at h2
            · rw [hinn]
              have h4 : j' + 1 - (i' + 1 + 3) = j' - (i' + 3) := by omega
              rw [h4]
              rfl

/-- C5 counterexample: the text "a---b---c" has no line consisting of
three dashes, yet front-matter extraction hands the material "b"
between the two embedded "---" substrings to the YAML parser and
returns the parsed mapping — the delimiters are not line-anchored. -/
theorem efm_line_cex :
    (∀ l ∈ linesOf (chars ("a---b---c")), l ≠ chars ("---")) ∧
    extract_front_matter parseC5 (chars ("a---b---c")) =
      [(("k"), YLeaf.yscalar ("v"))] ∧
    extract_front_matter parseC5 (chars ("a---b---c")) ≠ [] :=
  ⟨by decide, by decide, by decide⟩

/-- C5 amended: for every input text, front-matter extraction parses
the material between the first occurrence of the substring "---" from
which a later, non-overlapping occurrence exists and the earliest such
later occurrence — plain substring occurrences, not lines of three
dashes; when no such pair of occurrences exists, when the block fails
to parse, or when the parse result is not a mapping, it returns an
empty mapping, and it never raises. -/
theorem efm_amended (parse : List Char → Option YamlDoc) (c : List Char) :
    (∀ inn, reSearchTriple c = some inn ↔
      ∃ i j, FirstBlock c i j ∧ inn = (c.drop (i + 3)).take (j - (i + 3))) ∧
    (reSearchTriple c = none ↔
      ∀ i j, i + 3 ≤ j → tripleAtB c i = true → tripleAtB c j = false) ∧
    (extract_front_matter parse c =
      match reSearchTriple c with
      | none => []
      | some inner =>
        match parse inner with
        | some (YamlDoc.ymap m) => m
        | _ => []) :=
  ⟨fun inn => reSearch_some c inn, reSearch_none c, rfl⟩

/-- Witness for C5 amended: on "a---b---c" the search yields the block
"b", so the first-block positions exist (they are 1 and 5); on dashless
text the search fails, so no non-overlapping pair of occurrences
exists. -/
theorem efm_amended_witness :
    (∃ i j, FirstBlock (chars ("a---b---c")) i j ∧
      chars ("b") = ((chars ("a---b---c")).drop (i + 3)).take (j - (i + 3))) ∧
    (∀ i j, i + 3 ≤ j → tripleAtB (chars ("no dashes")) i = true →
      tripleAtB (chars ("no dashes")) j = false) :=
  ⟨((efm_amended parseC5 (chars ("a---b---c"))).1 (chars ("b"))).mp (by decide),
   ((efm_amended parseC5 (chars ("no dashes"))).2.1).mp (by decide)⟩
